import Mathlib

/-!
Verification of the ScholarSynth search subsystem.

Shallow embedding of the repository's search and ranking engine:
`SearchService` (src/unnamed/part_001, with the earlier revision in
src/unnamed/part_000), `AIService.generateEmbedding` / `localEmbedding`
(src/src/services/ai.ts) and the `StorageService` note/embedding accessors
(same file).  JavaScript numbers are modelled as exact rationals; the one
place the code takes a square root (cosine similarity, local-embedding
normalisation) is modelled exactly, see `SimScore` below.
-/

/-! ### JS string helpers

The service preprocesses text with `split(/\s+/)`, `toLowerCase()`,
`replace(/[^\w]/g, '')`, `replace(/[^\w\s]/g, ' ')` and
`String.prototype.includes`.  These are modelled character-exactly.
-/

/-- JS `\w` character class: `[A-Za-z0-9_]`. -/
def isWordChar (c : Char) : Bool :=
  c.isAlphanum || c == '_'

/-- JS `s.toLowerCase()` (`String.toLower`, stated over the character
list). -/
def jsToLower (s : String) : String :=
  String.mk (s.toList.map Char.toLower)

/-- Auxiliary splitter: JS `str.split(/\s+/)` splits at each maximal
whitespace run and keeps the (possibly empty) pieces before the first run
and after the last run.  `cur` is the current token (reversed); `inRun` is
true while consuming a whitespace run whose preceding piece has already
been emitted. -/
def jsSplitWsGo : List Char → List Char → Bool → List String
  | [], cur, false => [String.mk cur.reverse]
  | [], _, true => [""]
  | c :: rest, cur, false =>
    if c.isWhitespace then String.mk cur.reverse :: jsSplitWsGo rest [] true
    else jsSplitWsGo rest (c :: cur) false
  | c :: rest, _, true =>
    if c.isWhitespace then jsSplitWsGo rest [] true
    else jsSplitWsGo rest [c] false

/-- JS `str.split(/\s+/)`. -/
def jsSplitWs (s : String) : List String :=
  jsSplitWsGo s.toList [] false

/-- `needle` is a prefix of `hay` (character-wise). -/
def leadMatch : List Char → List Char → Bool
  | [], _ => true
  | _ :: _, [] => false
  | a :: as, b :: bs => a == b && leadMatch as bs

/-- Contiguous-substring test on character lists. -/
def hasSub : List Char → List Char → Bool
  | hay, needle =>
    match hay with
    | [] => needle.isEmpty
    | _ :: rest => leadMatch needle hay || hasSub rest needle

/-- JS `s.includes(sub)`. -/
def jsIncludes (s sub : String) : Bool :=
  hasSub s.toList sub.toList

/-! ### SearchService lexical matcher (src/unnamed/part_001) -/

namespace SearchService

/-- `preprocessQuery` (part_001 lines 195-202): split on whitespace, drop
words of length ≤ 2 and stop words, then strip non-word characters and
lowercase.  Note the filter runs before the punctuation strip, exactly as
in the source. -/
def preprocessQuery (query : String) : List String :=
  let stopWords : List String :=
    ["the", "and", "or", "but", "in", "on", "at", "to", "for", "of",
     "with", "by", "is", "are", "was", "were"]
  ((jsSplitWs query).filter
      (fun word => decide (2 < word.length) && !(stopWords.contains word))).map
    (fun word => jsToLower (String.mk (word.toList.filter isWordChar)))

/-- `preprocessText` (part_001 lines 204-206): lowercase, then replace every
character outside `[\w\s]` by a space. -/
def preprocessText (text : String) : String :=
  String.mk ((jsToLower text).toList.map
    (fun c => if isWordChar c || c.isWhitespace then c else ' '))

/-- One row-update of the classic Levenshtein DP table: `left` carries
`matrix[j][i-1]`, the zipped triple is `(str1 char, matrix[j-1][i-1],
matrix[j-1][i])`. -/
def levStepGo (tc : Char) : ℕ → List (Char × ℕ × ℕ) → List ℕ
  | _, [] => []
  | left, (c, diag, above) :: rest =>
    let v := min (left + 1) (min (above + 1) (diag + if c = tc then 0 else 1))
    v :: levStepGo tc v rest

/-- Next DP row given the previous row `prev` (row for `j-1`). -/
def levStep (cs : List Char) (tc : Char) (prev : List ℕ) : List ℕ :=
  let first := prev.headD 0 + 1
  first :: levStepGo tc first (cs.zip (prev.zip prev.tail))

/-- `levenshteinDistance` (part_001 lines 238-256): the dynamic-programming
matrix is computed row by row over `str2`; the answer is
`matrix[str2.length][str1.length]`, the last entry of the final row. -/
def levenshteinDistance (str1 str2 : String) : ℕ :=
  let cs := str1.toList
  let finalRow :=
    str2.toList.foldl (fun row tc => levStep cs tc row) (List.range (cs.length + 1))
  finalRow.getLastD 0

/-- `findSimilarWords` (part_001 lines 225-236): count document tokens at
edit distance ≤ 2 from `word`. -/
def findSimilarWords (word : String) (text : String) : ℕ :=
  ((jsSplitWs text).filter
      (fun textWord => decide (levenshteinDistance word textWord ≤ 2))).length

/-- `calculateTextSimilarity` (part_001 lines 208-223).  The source returns
`totalScore / maxPossibleScore` where `maxPossibleScore = queryWords.length`
with no guard; for an empty query JS computes `0 / 0 = NaN`.  We model the
score as `Option ℚ`, with `none` for that NaN (like NaN, `none` fails every
`>` comparison downstream). -/
def calculateTextSimilarity (queryWords : List String) (searchText : String) :
    Option ℚ :=
  let totalScore : ℚ :=
    queryWords.foldl
      (fun acc word =>
        if jsIncludes searchText word then acc + 1
        else acc + (findSimilarWords word searchText : ℚ) * (1 / 2))
      0
  let maxPossibleScore : ℚ := queryWords.length
  if queryWords.length = 0 then none else some (totalScore / maxPossibleScore)

end SearchService

/-! ### Exact similarity scores

`optimizedCosineSimilarity` returns `dot / (Math.sqrt(normA) * Math.sqrt(normB))`.
Over exact rationals the value is `num / Real.sqrt den` with `num` the dot
product and `den = normA * normB` (`√a·√b = √(a·b)` for nonnegative `a, b`),
which `SimScore` records exactly; `SimScore.toReal` is the real number the
JS float approximates.  Lexical scores `q` are stored as `⟨q, 1⟩`.  All
score comparisons performed by the service (`> 0.1`, the sort comparator)
are decided exactly by `SimScore.ltB`. -/
structure SimScore where
  num : ℚ
  den : ℚ
  deriving DecidableEq, Repr

/-- The real number a `SimScore` denotes. -/
noncomputable def SimScore.toReal (s : SimScore) : ℝ :=
  (s.num : ℝ) / Real.sqrt (s.den : ℝ)

/-- Exact decision procedure for `s.toReal < t.toReal` (valid whenever both
`den`s are positive, which holds for every score the service builds). -/
def SimScore.ltB (s t : SimScore) : Bool :=
  if s.num < 0 then
    if 0 ≤ t.num then true
    else decide (t.num ^ 2 * s.den < s.num ^ 2 * t.den)
  else
    if t.num ≤ 0 then false
    else decide (s.num ^ 2 * t.den < t.num ^ 2 * s.den)

/-! ### Data model (src/src/utils/message-utils.ts) -/

/-- A `Note` (message-utils.ts lines 42-57), restricted to the fields the
search subsystem reads: `source`, `url`, the timestamps, `feedback` and the
legacy inline `embedding` are never consulted by the modelled operations
and are omitted. -/
structure Note where
  id : String
  userId : String
  title : String
  content : String
  summary : String
  tags : List String
  project : String
  deriving DecidableEq, Repr

/-- A `SearchResult` (message-utils.ts lines 106-109): a note paired with a
similarity score. -/
structure SearchResult where
  note : Note
  similarity : SimScore
  deriving DecidableEq, Repr

/-- The authenticated user record returned by
`StorageService.getCurrentUser` (`{ id, email, name }`); only `id` is read
by the modelled operations. -/
structure AuthUser where
  id : String
  deriving DecidableEq, Repr

/-! ### StorageService (src/src/services/ai.ts lines 451-891) -/

namespace StorageService

/-- The persistence layer's observable state: the raw `notes` object store
(all users), the `embeddings` store, and the `userAuth` session. -/
structure Storage where
  allNotes : List Note
  embeddings : List (String × List ℚ)
  currentUser : Option AuthUser
  deriving DecidableEq, Repr

/-- `getAllNotes` (ai.ts lines 543-565): returns `[]` when no user is
authenticated, otherwise filters the store by the current user's id. -/
def getAllNotes (st : Storage) : List Note :=
  match st.currentUser with
  | none => []
  | some currentUser => st.allNotes.filter (fun note => note.userId == currentUser.id)

/-- `getNotesByProject` (ai.ts lines 567-578): an indexed lookup over the
whole `notes` store — unlike `getAllNotes`, it performs no user filtering
and no authentication check. -/
def getNotesByProject (st : Storage) (projectId : String) : List Note :=
  st.allNotes.filter (fun note => note.project == projectId)

/-- `getAllEmbeddings` (ai.ts lines 758-768). -/
def getAllEmbeddings (st : Storage) : List (String × List ℚ) :=
  st.embeddings

/-- `saveEmbedding` (ai.ts lines 734-744): `store.put` overwrites the record
with key `id`. -/
def saveEmbedding (st : Storage) (id : String) (embedding : List ℚ) : Storage :=
  { st with embeddings := (id, embedding) :: st.embeddings.filter (fun p => p.1 != id) }

end StorageService

/-! ### AIService embedding generation (src/src/services/ai.ts lines 246-309)

`generateEmbedding` calls the external Gemini provider; the provider is
modelled as an arbitrary function `String → Except String (List ℝ)` (it may
fail with any error, or resolve with a vector of any length).  A response
with no `embedding.values` throws inside the `try`, which the surrounding
`catch` turns into the local fallback, so it is folded into the provider's
`.error` case.  Vector components are floats; they are modelled as reals
because `localEmbedding` divides by `Math.sqrt` of a sum of squares.  (When
that magnitude is zero JS produces `NaN` components where the real model
yields `0`; no modelled claim inspects the components' values.) -/

namespace AIService

/-- 32-bit signed-integer wraparound, as performed by JS `| 0`-style
coercions (`hash & hash` and `<< 5` in `simpleHash`). -/
def to32 (n : Int) : Int :=
  (n + 2 ^ 31) % 2 ^ 32 - 2 ^ 31

/-- `simpleHash` (ai.ts lines 301-309): `hash = ((hash << 5) - hash) + char`
with 32-bit wrap at the shift and at `hash & hash`, then `Math.abs`. -/
def simpleHash (str : String) : ℕ :=
  (str.toList.foldl
      (fun hash c => to32 (to32 (hash * 32) - hash + c.toNat)) 0).natAbs

/-- Insertion-ordered frequency bump, mirroring `wordFreq[word] =
(wordFreq[word] || 0) + 1` on a plain JS object. -/
def bumpFreq : List (String × ℕ) → String → List (String × ℕ)
  | [], w => [(w, 1)]
  | (k, v) :: rest, w =>
    if k == w then (k, v + 1) :: rest else (k, v) :: bumpFreq rest w

/-- The 128-slot accumulation step of `localEmbedding` (ai.ts lines 286-294):
`embedding[hash % 128] += freq`, starting from 128 zeros. -/
def localEmbeddingRaw (text : String) : List ℚ :=
  let words := (jsSplitWs (jsToLower text)).filter (fun word => decide (2 < word.length))
  let wordFreq := words.foldl bumpFreq []
  wordFreq.foldl
    (fun embedding wf =>
      let position := simpleHash wf.1 % 128
      embedding.set position (embedding.getD position 0 + wf.2))
    (List.replicate 128 (0 : ℚ))

/-- `localEmbedding` (ai.ts lines 277-299): the hash-based 128-dimensional
embedding, normalised by the magnitude `Math.sqrt (Σ v²)`. -/
noncomputable def localEmbedding (text : String) : List ℝ :=
  let raw : List ℝ := (localEmbeddingRaw text).map (fun v => ((v : ℚ) : ℝ))
  let magnitude := Real.sqrt ((raw.map (fun v => v * v)).sum)
  raw.map (fun v => v / magnitude)

/-- `generateEmbedding` (ai.ts lines 246-275): on a successful provider
response the vector is returned only if its length is exactly 128,
otherwise the local fallback is used; every thrown error (network, auth,
quota, malformed response) is caught and also answered with the local
fallback.  The `Except` result type mirrors the promise, which could
reject — this function never does. -/
noncomputable def generateEmbedding (provider : String → Except String (List ℝ))
    (text : String) : Except String (List ℝ) :=
  match provider text with
  | .ok values => if values.length = 128 then .ok values else .ok (localEmbedding text)
  | .error _ => .ok (localEmbedding text)

end AIService

/-! ### SearchService retrieval engine (src/unnamed/part_001) -/

namespace SearchService

/-- The mutable fields of the `SearchService` instance plus the storage it
reads and writes, and an instrumentation counter `providerCalls` recording
how many times `aiService.generateEmbedding` was invoked. -/
structure SearchState where
  embeddingCache : List (String × List ℚ)
  searchCache : List (String × List SearchResult)
  lastCacheCleanup : Int
  storage : StorageService.Storage
  providerCalls : ℕ
  deriving DecidableEq, Repr

/-- The engine's external collaborator: `aiService.generateEmbedding` as
observed at the search-service boundary (deterministic during a search). -/
structure SearchEnv where
  gen : String → Except String (List ℚ)

/-- `CACHE_DURATION` (part_001 line 8): five minutes in milliseconds. -/
def CACHE_DURATION : Int := 5 * 60 * 1000

/-- `cleanupCache` (part_001 lines 258-266): clears both caches wholesale
once more than `CACHE_DURATION` has passed since the last sweep. -/
def cleanupCache (now : Int) (s : SearchState) : SearchState :=
  if CACHE_DURATION < now - s.lastCacheCleanup then
    { s with embeddingCache := [], searchCache := [], lastCacheCleanup := now }
  else s

/-- `getCachedEmbedding` (part_001 lines 123-133): memoises
`aiService.generateEmbedding` under the key `"embedding_" ++ lowercased
text`; a provider failure is not cached and propagates. -/
def getCachedEmbedding (env : SearchEnv) (text : String) (s : SearchState) :
    Except String (List ℚ) × SearchState :=
  let cacheKey := "embedding_" ++ jsToLower text
  match s.embeddingCache.lookup cacheKey with
  | some cached => (.ok cached, s)
  | none =>
    match env.gen text with
    | .ok embedding =>
      (.ok embedding,
        { s with embeddingCache := (cacheKey, embedding) :: s.embeddingCache,
                 providerCalls := s.providerCalls + 1 })
    | .error e => (.error e, { s with providerCalls := s.providerCalls + 1 })

/-- `optimizedCosineSimilarity` (part_001 lines 135-158): throws on a length
mismatch, returns 0 when either norm is zero, otherwise
`dot / (√normA * √normB)` — recorded exactly as `⟨dot, normA * normB⟩`. -/
def optimizedCosineSimilarity (vecA vecB : List ℚ) : Except String SimScore :=
  if vecA.length ≠ vecB.length then .error "Vectors must have the same length"
  else
    let dotProduct := (List.zipWith (· * ·) vecA vecB).sum
    let normA := (vecA.map (fun a => a * a)).sum
    let normB := (vecB.map (fun b => b * b)).sum
    if normA = 0 ∨ normB = 0 then .ok ⟨0, 1⟩
    else .ok ⟨dotProduct, normA * normB⟩

/-- `cosineSimilarity` of the earlier revision (part_000 lines 143-163);
mathematically identical to `optimizedCosineSimilarity`. -/
def cosineSimilarity (vecA vecB : List ℚ) : Except String SimScore :=
  if vecA.length ≠ vecB.length then .error "Vectors must have the same length"
  else
    let dotProduct := (List.zipWith (· * ·) vecA vecB).sum
    let normA := (vecA.map (fun a => a * a)).sum
    let normB := (vecB.map (fun b => b * b)).sum
    if normA = 0 ∨ normB = 0 then .ok ⟨0, 1⟩
    else .ok ⟨dotProduct, normA * normB⟩

/-- The decimal numeral of a natural number, as JS `${limit}` renders it. -/
def digitChar (n : ℕ) : Char :=
  match n with
  | 0 => '0' | 1 => '1' | 2 => '2' | 3 => '3' | 4 => '4'
  | 5 => '5' | 6 => '6' | 7 => '7' | 8 => '8' | 9 => '9'
  | _ => '*'

/-- Fuelled digit expansion (`fuel ≥ n` suffices: the digit count of `n`
never exceeds `n + 1`). -/
def natDigitsAux : ℕ → ℕ → List Char
  | 0, _ => []
  | fuel + 1, n =>
    if n < 10 then [digitChar n]
    else natDigitsAux fuel (n / 10) ++ [digitChar (n % 10)]

/-- Decimal digit list of `n` (most significant first). -/
def natDigits (n : ℕ) : List Char :=
  natDigitsAux (n + 1) n

/-- JS template rendering of a natural number. -/
def natRepr (n : ℕ) : String := String.mk (natDigits n)

/-- The result-cache key `` `${query.toLowerCase()}_${limit}` `` (part_001
line 19). -/
def mkCacheKey (query : String) (limit : ℕ) : String :=
  jsToLower query ++ "_" ++ natRepr limit

/-- Stable insertion step of the JS `sort((a, b) => b.similarity -
a.similarity)`: `x` is placed before the first element strictly smaller
than it, keeping the original order of equal scores. -/
def insertDesc (x : SearchResult) : List SearchResult → List SearchResult
  | [] => [x]
  | y :: ys =>
    if SimScore.ltB x.similarity y.similarity then y :: insertDesc x ys
    else x :: y :: ys

/-- The stable descending sort by `similarity` used on every result list. -/
def sortBySimilarityDesc : List SearchResult → List SearchResult
  | [] => []
  | x :: xs => insertDesc x (sortBySimilarityDesc xs)

/-- `optimizedTextBasedSearch` (part_001 lines 160-193): score every note of
the current user, keep scores `> 0.1`, sort descending, truncate to
`limit`.  A NaN score (`none`) fails the `> 0.1` test, as in JS. -/
def optimizedTextBasedSearch (st : StorageService.Storage) (query : String)
    (limit : ℕ) : List SearchResult :=
  let notes := StorageService.getAllNotes st
  let queryLower := jsToLower query
  let queryWords := preprocessQuery queryLower
  let results :=
    notes.foldl
      (fun acc note =>
        let searchText := preprocessText
          (note.title ++ " " ++ note.content ++ " " ++ note.summary ++ " " ++
            String.intercalate " " note.tags)
        match calculateTextSimilarity queryWords searchText with
        | none => acc
        | some score =>
          if (1 / 10 : ℚ) < score then acc ++ [⟨note, ⟨score, 1⟩⟩] else acc)
      []
  (sortBySimilarityDesc results).take limit

/-- `regenerateEmbeddings` (part_001 lines 363-383): for every note of the
current user, request a fresh embedding and overwrite the stored record;
per-note failures are caught and skipped, and the surrounding `try/catch`
means the function never throws. -/
def regenerateEmbeddings (env : SearchEnv) (s : SearchState) : SearchState :=
  (StorageService.getAllNotes s.storage).foldl
    (fun s note =>
      match env.gen note.content with
      | .ok newEmbedding =>
        { s with storage := StorageService.saveEmbedding s.storage note.id newEmbedding,
                 providerCalls := s.providerCalls + 1 }
      | .error _ => { s with providerCalls := s.providerCalls + 1 })
    s

/-- The similarity pass of `searchNotes` (part_001 lines 56-90): walk the
notes (the batching walks them in the same order), look up each stored
embedding, record a mismatch flag on length disagreement, otherwise score
and keep results with similarity `> 0.1`.  The per-note `catch` around the
scoring is the `.error` case (unreachable once lengths match). -/
def scorePass (queryEmbedding : List ℚ) (embeddings : List (String × List ℚ))
    (notes : List Note) : List SearchResult × Bool :=
  notes.foldl
    (fun acc note =>
      match embeddings.lookup note.id with
      | none => acc
      | some noteEmbedding =>
        if queryEmbedding.length ≠ noteEmbedding.length then (acc.1, true)
        else
          match optimizedCosineSimilarity queryEmbedding noteEmbedding with
          | .error _ => acc
          | .ok similarity =>
            if SimScore.ltB ⟨1 / 10, 1⟩ similarity then (acc.1 ++ [⟨note, similarity⟩], acc.2)
            else acc)
    ([], false)

/-- `searchNotes` (part_001 lines 11-121), with a fuel parameter making the
source's unbounded `return this.searchNotes(query, limit)` repair retry
(line 97) explicit: `none` means the recursion did not terminate within
`fuel` nested calls.  The `catch` around `regenerateEmbeddings` (lines
98-101) is dead because the model of `regenerateEmbeddings` (like the
source) never throws, and the outer `catch` (line 117) is likewise
unreachable: every remaining operation is total. -/
def searchNotesFuel (env : SearchEnv) :
    ℕ → Int → String → ℕ → SearchState → Option (List SearchResult × SearchState)
  | 0, _, _, _, _ => none
  | fuel + 1, now, query, limit, s0 =>
    let s := cleanupCache now s0
    let cacheKey := mkCacheKey query limit
    match s.searchCache.lookup cacheKey with
    | some cachedResults => some (cachedResults, s)
    | none =>
      match getCachedEmbedding env query s with
      | (.error _, s1) => some (optimizedTextBasedSearch s1.storage query limit, s1)
      | (.ok queryEmbedding, s1) =>
        let notes := StorageService.getAllNotes s1.storage
        let embeddings := StorageService.getAllEmbeddings s1.storage
        if embeddings.length = 0 then
          some (optimizedTextBasedSearch s1.storage query limit, s1)
        else
          let rm := scorePass queryEmbedding embeddings notes
          if rm.2 = true ∧ rm.1.length = 0 then
            searchNotesFuel env fuel now query limit (regenerateEmbeddings env s1)
          else
            let finalResults := (sortBySimilarityDesc rm.1).take limit
            some (finalResults,
              { s1 with searchCache := (cacheKey, finalResults) :: s1.searchCache })

/-- `searchByProject` (part_001 lines 280-282): a straight delegation to
`storageService.getNotesByProject`. -/
def searchByProject (st : StorageService.Storage) (projectId : String) : List Note :=
  StorageService.getNotesByProject st projectId

end SearchService

/-! ### Score-order correctness: `SimScore.ltB` decides the real order -/

lemma sq_lt_sq_iff_of_nonneg {x y : ℝ} (hx : 0 ≤ x) (hy : 0 ≤ y) :
    x ^ 2 < y ^ 2 ↔ x < y := by
  constructor
  · intro h; nlinarith
  · intro h; nlinarith

/-- A lexical score `q` is stored as `⟨q, 1⟩`; its real value is `q`. -/
lemma SimScore.toReal_one (q : ℚ) : (SimScore.mk q 1).toReal = (q : ℝ) := by
  simp [SimScore.toReal]

/-- On scores with positive `den` — every score the service constructs —
`ltB` decides the strict order of the denoted real numbers. -/
lemma SimScore.ltB_iff {s t : SimScore} (hs : 0 < s.den) (ht : 0 < t.den) :
    s.ltB t = true ↔ s.toReal < t.toReal := by
  have hsR : (0 : ℝ) < (s.den : ℚ) := by exact_mod_cast hs
  have htR : (0 : ℝ) < (t.den : ℚ) := by exact_mod_cast ht
  have has : (0 : ℝ) < Real.sqrt (s.den : ℚ) := Real.sqrt_pos.mpr hsR
  have hat : (0 : ℝ) < Real.sqrt (t.den : ℚ) := Real.sqrt_pos.mpr htR
  have hs2 : Real.sqrt ((s.den : ℚ) : ℝ) ^ 2 = ((s.den : ℚ) : ℝ) := Real.sq_sqrt hsR.le
  have ht2 : Real.sqrt ((t.den : ℚ) : ℝ) ^ 2 = ((t.den : ℚ) : ℝ) := Real.sq_sqrt htR.le
  have key : s.toReal < t.toReal ↔
      ((s.num : ℚ) : ℝ) * Real.sqrt (t.den : ℚ) < ((t.num : ℚ) : ℝ) * Real.sqrt (s.den : ℚ) := by
    unfold SimScore.toReal
    exact div_lt_div_iff₀ has hat
  by_cases h1 : s.num < 0
  · have h1R : ((s.num : ℚ) : ℝ) < 0 := by exact_mod_cast h1
    by_cases h2 : 0 ≤ t.num
    · have h2R : (0 : ℝ) ≤ ((t.num : ℚ) : ℝ) := by exact_mod_cast h2
      simp only [SimScore.ltB, if_pos h1, if_pos h2, true_iff]
      rw [key]
      nlinarith
    · push_neg at h2
      have h2R : ((t.num : ℚ) : ℝ) < 0 := by exact_mod_cast h2
      simp only [SimScore.ltB, if_pos h1, if_neg (not_le.mpr h2), decide_eq_true_eq]
      rw [key]
      have hq : (t.num ^ 2 * s.den < s.num ^ 2 * t.den) ↔
          (((t.num : ℚ) : ℝ) ^ 2 * ((s.den : ℚ) : ℝ) < ((s.num : ℚ) : ℝ) ^ 2 * ((t.den : ℚ) : ℝ)) := by
        constructor <;> intro h <;> exact_mod_cast h
      rw [hq]
      have ha : ((s.num : ℚ) : ℝ) * Real.sqrt (t.den : ℚ) < 0 := by nlinarith
      have hb : ((t.num : ℚ) : ℝ) * Real.sqrt (s.den : ℚ) < 0 := by nlinarith
      have hiff := @sq_lt_sq_iff_of_nonneg (-(((t.num : ℚ) : ℝ) * Real.sqrt (s.den : ℚ)))
        (-(((s.num : ℚ) : ℝ) * Real.sqrt (t.den : ℚ))) (by linarith) (by linarith)
      constructor
      · intro h
        have : (-(((t.num : ℚ) : ℝ) * Real.sqrt (s.den : ℚ))) ^ 2 <
            (-(((s.num : ℚ) : ℝ) * Real.sqrt (t.den : ℚ))) ^ 2 := by
          ring_nf
          ring_nf at hs2 ht2
          nlinarith [hs2, ht2]
        linarith [hiff.mp this]
      · intro h
        have := hiff.mpr (by linarith)
        ring_nf at this
        ring_nf at hs2 ht2
        nlinarith [hs2, ht2, this]
  · push_neg at h1
    have h1R : (0 : ℝ) ≤ ((s.num : ℚ) : ℝ) := by exact_mod_cast h1
    by_cases h2 : t.num ≤ 0
    · have h2R : ((t.num : ℚ) : ℝ) ≤ 0 := by exact_mod_cast h2
      simp only [SimScore.ltB, if_neg (not_lt.mpr h1), if_pos h2,
        Bool.false_eq_true, false_iff]
      rw [key]
      have ha : (0 : ℝ) ≤ ((s.num : ℚ) : ℝ) * Real.sqrt (t.den : ℚ) :=
        mul_nonneg h1R hat.le
      have hb : ((t.num : ℚ) : ℝ) * Real.sqrt (s.den : ℚ) ≤ 0 :=
        mul_nonpos_of_nonpos_of_nonneg h2R has.le
      intro hcon
      linarith
    · push_neg at h2
      have h2R : (0 : ℝ) < ((t.num : ℚ) : ℝ) := by exact_mod_cast h2
      simp only [SimScore.ltB, if_neg (not_lt.mpr h1), if_neg (not_le.mpr h2),
        decide_eq_true_eq]
      rw [key]
      have hq : (s.num ^ 2 * t.den < t.num ^ 2 * s.den) ↔
          (((s.num : ℚ) : ℝ) ^ 2 * ((t.den : ℚ) : ℝ) < ((t.num : ℚ) : ℝ) ^ 2 * ((s.den : ℚ) : ℝ)) := by
        constructor <;> intro h <;> exact_mod_cast h
      rw [hq]
      have hiff := @sq_lt_sq_iff_of_nonneg (((s.num : ℚ) : ℝ) * Real.sqrt (t.den : ℚ))
        (((t.num : ℚ) : ℝ) * Real.sqrt (s.den : ℚ)) (by positivity)
        (by positivity)
      rw [← hiff]
      constructor
      · intro h
        ring_nf
        ring_nf at hs2 ht2
        nlinarith [hs2, ht2]
      · intro h
        ring_nf at h
        ring_nf at hs2 ht2
        nlinarith [hs2, ht2, h]

/-! ### Cosine similarity: range and dimension-mismatch behaviour -/

lemma normSq_nonneg (v : List ℚ) : 0 ≤ (v.map (fun x => x * x)).sum := by
  induction v with
  | nil => simp
  | cons x xs ih => simp only [List.map, List.sum_cons]; nlinarith [sq_nonneg x]

lemma normSq_eq_zero_of_all_zero {v : List ℚ} (h : ∀ x ∈ v, x = 0) :
    (v.map (fun x => x * x)).sum = 0 := by
  induction v with
  | nil => simp
  | cons x xs ih =>
    have hx := h x (List.mem_cons_self _ _)
    simp only [List.map, List.sum_cons, hx]
    rw [ih (fun y hy => h y (List.mem_cons_of_mem _ hy))]
    ring

/-- Cauchy–Schwarz for the zip-truncated dot product: the square of the dot
product is bounded by the product of the squared norms (for any two lists,
in particular equal-length ones). -/
lemma dot_sq_le_normSq_mul (a b : List ℚ) :
    ((List.zipWith (· * ·) a b).sum) ^ 2 ≤
      ((a.map (fun x => x * x)).sum) * ((b.map (fun x => x * x)).sum) := by
  induction a generalizing b with
  | nil => simp
  | cons x as ih =>
    cases b with
    | nil => simp
    | cons y bs =>
      simp only [List.zipWith, List.map, List.sum_cons]
      have h := ih bs
      have hn := normSq_nonneg as
      have hm := normSq_nonneg bs
      set d := (List.zipWith (· * ·) as bs).sum with hd
      set n := (as.map (fun x => x * x)).sum with hns
      set m := (bs.map (fun x => x * x)).sum with hms
      have hnd : 0 ≤ n * m - d ^ 2 := by nlinarith
      rcases hm.eq_or_lt with hm0 | hmpos
      · have hdz : d = 0 := by nlinarith [sq_nonneg d]
        rw [hdz, ← hm0]
        nlinarith [mul_nonneg hn (sq_nonneg y)]
      · nlinarith [sq_nonneg (x * m - y * d), mul_nonneg hnd (sq_nonneg y),
          mul_nonneg hmpos.le hnd]

/-- C6: comparing vectors of different lengths (for instance a 128-length
and a 64-length vector) makes both `optimizedCosineSimilarity` and the
earlier revision's `cosineSimilarity` throw the dimension-mismatch error;
neither returns a numeric score. -/
theorem cosineSimilarity_dimension_mismatch_error (a b : List ℚ)
    (h : a.length ≠ b.length) :
    SearchService.optimizedCosineSimilarity a b =
        .error "Vectors must have the same length" ∧
      SearchService.cosineSimilarity a b =
        .error "Vectors must have the same length" := by
  constructor <;>
    simp [SearchService.optimizedCosineSimilarity, SearchService.cosineSimilarity, h]

/-- Witness for C6 at the spec's example: a 128-length versus a 64-length
vector. -/
theorem cosineSimilarity_dimension_mismatch_error_witness :
    (List.replicate 128 (1 : ℚ)).length ≠ (List.replicate 64 (1 : ℚ)).length ∧
      SearchService.optimizedCosineSimilarity
        (List.replicate 128 (1 : ℚ)) (List.replicate 64 (1 : ℚ)) =
        .error "Vectors must have the same length" := by
  have h : (List.replicate 128 (1 : ℚ)).length ≠ (List.replicate 64 (1 : ℚ)).length := by
    simp
  exact ⟨h, (cosineSimilarity_dimension_mismatch_error _ _ h).1⟩

/-- C9: on equal-length vectors `optimizedCosineSimilarity` succeeds with a
score whose real value lies in `[-1, 1]`, and if either vector is all
zeros (zero magnitude) the value is exactly `0` — no division-by-zero
error. -/
theorem cosineSimilarity_contract (a b : List ℚ) (h : a.length = b.length) :
    ∃ s : SimScore, SearchService.optimizedCosineSimilarity a b = .ok s ∧
      -1 ≤ s.toReal ∧ s.toReal ≤ 1 ∧
      (((∀ x ∈ a, x = 0) ∨ (∀ x ∈ b, x = 0)) → s.toReal = 0) := by
  unfold SearchService.optimizedCosineSimilarity
  rw [if_neg (by simpa using h)]
  set dot := (List.zipWith (· * ·) a b).sum with hdot
  set normA := (a.map (fun x => x * x)).sum with hnA
  set normB := (b.map (fun x => x * x)).sum with hnB
  by_cases hz : normA = 0 ∨ normB = 0
  · refine ⟨⟨0, 1⟩, by rw [if_pos hz], ?_, ?_, fun _ => ?_⟩ <;>
      simp [SimScore.toReal]
  · push_neg at hz
    refine ⟨⟨dot, normA * normB⟩, by rw [if_neg (by tauto)], ?_⟩
    have hA : 0 < normA := lt_of_le_of_ne (normSq_nonneg a) (Ne.symm hz.1)
    have hB : 0 < normB := lt_of_le_of_ne (normSq_nonneg b) (Ne.symm hz.2)
    have hden : (0 : ℝ) < ((normA * normB : ℚ) : ℝ) := by
      have : (0 : ℚ) < normA * normB := mul_pos hA hB
      exact_mod_cast this
    have hsq : (0 : ℝ) < Real.sqrt ((normA * normB : ℚ) : ℝ) := Real.sqrt_pos.mpr hden
    have hcs : ((dot : ℚ) : ℝ) ^ 2 ≤ ((normA * normB : ℚ) : ℝ) := by
      have := dot_sq_le_normSq_mul a b
      have hq : dot ^ 2 ≤ normA * normB := this
      exact_mod_cast hq
    have habs : |((dot : ℚ) : ℝ)| ≤ Real.sqrt ((normA * normB : ℚ) : ℝ) := by
      have h1 := Real.sqrt_le_sqrt hcs
      rwa [Real.sqrt_sq_eq_abs] at h1
    have hboth : |SimScore.toReal ⟨dot, normA * normB⟩| ≤ 1 := by
      unfold SimScore.toReal
      rw [abs_div, abs_of_pos hsq, div_le_one hsq]
      exact habs
    have hbounds := abs_le.mp hboth
    refine ⟨hbounds.1, hbounds.2, ?_⟩
    intro hzero
    exfalso
    rcases hzero with hza | hzb
    · exact hz.1 (normSq_eq_zero_of_all_zero hza)
    · exact hz.2 (normSq_eq_zero_of_all_zero hzb)

/-- Witness for C9 at the concrete pair `[1, 0]`, `[0, 1]`. -/
theorem cosineSimilarity_contract_witness :
    [(1 : ℚ), 0].length = [(0 : ℚ), 1].length ∧
      ∃ s : SimScore,
        SearchService.optimizedCosineSimilarity [(1 : ℚ), 0] [(0 : ℚ), 1] = .ok s ∧
          -1 ≤ s.toReal ∧ s.toReal ≤ 1 ∧
          (((∀ x ∈ [(1 : ℚ), 0], x = 0) ∨ (∀ x ∈ [(0 : ℚ), 1], x = 0)) → s.toReal = 0) :=
  ⟨rfl, cosineSimilarity_contract [(1 : ℚ), 0] [(0 : ℚ), 1] rfl⟩

/-! ### C1: user isolation -/

/-- Current session for the isolation scenario. -/
def c1User : AuthUser := ⟨"user-1"⟩

/-- A note owned by a different user, sharing a project identifier. -/
def c1ForeignNote : Note := ⟨"n2", "user-2", "t", "c", "s", [], "shared-project"⟩

/-- Storage holding only the foreign user's note, with `user-1` signed in. -/
def c1Storage : StorageService.Storage := ⟨[c1ForeignNote], [], some c1User⟩

/-- C1 fails on `searchByProject`: with `user-1` authenticated, it returns
`user-2`'s note (because `getNotesByProject`, unlike `getAllNotes`,
performs no user filtering), and an unauthenticated session receives the
same non-empty list instead of `[]`. -/
theorem searchByProject_returns_foreign_note :
    SearchService.searchByProject c1Storage "shared-project" = [c1ForeignNote] ∧
      c1ForeignNote.userId ≠ c1User.id ∧
      SearchService.searchByProject { c1Storage with currentUser := none }
        "shared-project" = [c1ForeignNote] := by
  refine ⟨rfl, ?_, rfl⟩
  decide

/-! ### C2 / C10: `generateEmbedding` never propagates provider failures -/

/-- A provider that always fails (network error). -/
def failingProvider : String → Except String (List ℝ) := fun _ => .error "network error"

/-- Counterexample to C2: when the provider call fails,
`generateEmbedding` does not propagate the failure — it resolves with the
locally computed hash-based embedding instead, so `getCachedEmbedding`'s
caller never sees the provider error. -/
theorem generateEmbedding_substitutes_local_on_failure :
    AIService.generateEmbedding failingProvider "hello" =
        .ok (AIService.localEmbedding "hello") ∧
      ∀ e, AIService.generateEmbedding failingProvider "hello" ≠ .error e := by
  refine ⟨rfl, fun e h => ?_⟩
  simp [AIService.generateEmbedding, failingProvider] at h

/-- C2 amended: for every provider behaviour and every text, a provider
failure — and likewise a provider vector of length other than 128 — is
swallowed by `generateEmbedding`, which resolves with the locally computed
embedding rather than rejecting. -/
theorem generateEmbedding_never_propagates
    (provider : String → Except String (List ℝ)) (text : String) :
    ((∃ e, provider text = .error e) →
        AIService.generateEmbedding provider text = .ok (AIService.localEmbedding text)) ∧
      (∀ v, provider text = .ok v → v.length ≠ 128 →
        AIService.generateEmbedding provider text = .ok (AIService.localEmbedding text)) := by
  constructor
  · rintro ⟨e, he⟩
    simp [AIService.generateEmbedding, he]
  · intro v hv hlen
    simp [AIService.generateEmbedding, hv, hlen]

/-- Witness for the amended C2 on a concrete failing provider. -/
theorem generateEmbedding_never_propagates_witness :
    AIService.generateEmbedding failingProvider "x" = .ok (AIService.localEmbedding "x") :=
  (generateEmbedding_never_propagates failingProvider "x").1 ⟨"network error", rfl⟩

/-- Folding `List.set` updates over an accumulator never changes its
length. -/
lemma foldl_set_length (l : List (String × ℕ)) (acc : List ℚ) :
    (l.foldl
        (fun embedding wf =>
          let position := AIService.simpleHash wf.1 % 128
          embedding.set position (embedding.getD position 0 + wf.2)) acc).length =
      acc.length := by
  induction l generalizing acc with
  | nil => rfl
  | cons wf rest ih => rw [List.foldl_cons, ih, List.length_set]

/-- The 128-slot accumulator keeps its length under the frequency updates. -/
lemma localEmbeddingRaw_length (text : String) :
    (AIService.localEmbeddingRaw text).length = 128 := by
  unfold AIService.localEmbeddingRaw
  rw [foldl_set_length, List.length_replicate]

/-- C10: `generateEmbedding` is total at its interface — for every provider
behaviour and every text it resolves (never rejects) with a vector of
length exactly 128: wrong-length provider responses and provider errors
are both replaced by the locally computed 128-dimensional hash-based
embedding. -/
theorem generateEmbedding_total_length_128
    (provider : String → Except String (List ℝ)) (text : String) :
    ∃ v, AIService.generateEmbedding provider text = .ok v ∧ v.length = 128 := by
  have hlocal : (AIService.localEmbedding text).length = 128 := by
    unfold AIService.localEmbedding
    simp only [List.length_map]
    exact localEmbeddingRaw_length text
  cases hp : provider text with
  | ok values =>
    by_cases hlen : values.length = 128
    · refine ⟨values, ?_, hlen⟩
      simp [AIService.generateEmbedding, hp, hlen]
    · refine ⟨AIService.localEmbedding text, ?_, hlocal⟩
      simp [AIService.generateEmbedding, hp, hlen]
  | error e =>
    refine ⟨AIService.localEmbedding text, ?_, hlocal⟩
    simp [AIService.generateEmbedding, hp]

/-! ### Lexical fallback: exact characterisation, threshold counterexample -/

lemma mem_insertDesc {x y : SearchResult} {l : List SearchResult} :
    y ∈ SearchService.insertDesc x l ↔ y = x ∨ y ∈ l := by
  induction l with
  | nil => simp [SearchService.insertDesc]
  | cons z zs ih =>
    unfold SearchService.insertDesc
    by_cases h : SimScore.ltB x.similarity z.similarity
    · rw [if_pos h]
      simp only [List.mem_cons, ih]
      tauto
    · rw [if_neg h]
      simp only [List.mem_cons]

lemma mem_sortBySimilarityDesc {y : SearchResult} {l : List SearchResult} :
    y ∈ SearchService.sortBySimilarityDesc l ↔ y ∈ l := by
  induction l with
  | nil => simp [SearchService.sortBySimilarityDesc]
  | cons x xs ih =>
    simp [SearchService.sortBySimilarityDesc, mem_insertDesc, ih]

lemma foldl_toList_filterMap {α β : Type} (g : α → Option β) :
    ∀ (l : List α) (acc : List β),
      l.foldl (fun acc x => acc ++ (g x).toList) acc = acc ++ l.filterMap g := by
  intro l
  induction l with
  | nil => simp
  | cons x xs ih =>
    intro acc
    cases hg : g x <;>
      simp [List.filterMap_cons, hg, ih, List.append_assoc]

/-- The per-note scorer of the lexical fallback, in `Option` form: `some`
iff the note's score clears the `> 0.1` cutoff. -/
def lexicalScorer (queryWords : List String) (note : Note) : Option SearchResult :=
  match SearchService.calculateTextSimilarity queryWords
      (SearchService.preprocessText
        (note.title ++ " " ++ note.content ++ " " ++ note.summary ++ " " ++
          String.intercalate " " note.tags)) with
  | none => none
  | some score => if (1 / 10 : ℚ) < score then some ⟨note, ⟨score, 1⟩⟩ else none

/-- The lexical fallback loop is the `0.1`-threshold filter followed by the
descending sort and the truncation. -/
lemma optimizedTextBasedSearch_spec
    (st : StorageService.Storage) (query : String) (limit : ℕ) :
    SearchService.optimizedTextBasedSearch st query limit =
        (SearchService.sortBySimilarityDesc
          ((StorageService.getAllNotes st).filterMap
            (lexicalScorer (SearchService.preprocessQuery (jsToLower query))))).take limit ∧
      ∀ r ∈ SearchService.optimizedTextBasedSearch st query limit,
        ∃ score : ℚ, (1 / 10 : ℚ) < score ∧ r.similarity = ⟨score, 1⟩ := by
  have hbody : ∀ (acc : List SearchResult) (note : Note),
      (fun acc note =>
          let searchText := SearchService.preprocessText
            (note.title ++ " " ++ note.content ++ " " ++ note.summary ++ " " ++
              String.intercalate " " note.tags)
          match SearchService.calculateTextSimilarity
              (SearchService.preprocessQuery (jsToLower query)) searchText with
          | none => acc
          | some score =>
            if (1 / 10 : ℚ) < score then acc ++ [⟨note, ⟨score, 1⟩⟩] else acc)
        acc note =
      acc ++ (lexicalScorer (SearchService.preprocessQuery (jsToLower query)) note).toList := by
    intro acc note
    simp only [lexicalScorer]
    cases hc : SearchService.calculateTextSimilarity
        (SearchService.preprocessQuery (jsToLower query))
        (SearchService.preprocessText
          (note.title ++ " " ++ note.content ++ " " ++ note.summary ++ " " ++
            String.intercalate " " note.tags)) with
    | none => simp [hc]
    | some score =>
      simp only [hc]
      by_cases hs : (1 / 10 : ℚ) < score
      · rw [if_pos hs, if_pos hs]
        simp
      · rw [if_neg hs, if_neg hs]
        simp
  have heq : SearchService.optimizedTextBasedSearch st query limit =
      (SearchService.sortBySimilarityDesc
        ((StorageService.getAllNotes st).filterMap
          (lexicalScorer (SearchService.preprocessQuery (jsToLower query))))).take limit := by
    simp only [SearchService.optimizedTextBasedSearch]
    rw [List.foldl_ext _ _ _ (fun acc note _ => hbody acc note),
      foldl_toList_filterMap, List.nil_append]
  refine ⟨heq, fun r hr => ?_⟩
  rw [heq] at hr
  have hr' := List.mem_of_mem_take hr
  rw [mem_sortBySimilarityDesc] at hr'
  obtain ⟨note, -, hg⟩ := List.mem_filterMap.mp hr'
  unfold lexicalScorer at hg
  split at hg
  · exact absurd hg (by simp)
  · next score hc =>
    split at hg
    · next hs =>
      obtain rfl := Option.some_inj.mp hg
      exact ⟨score, hs, rfl⟩
    · exact absurd hg (by simp)

/-- C5 corrected: the optimized lexical fallback scores every note of the
current user's corpus and returns exactly the notes whose score is
strictly greater than `0.1` (not `0`), sorted by score descending and
truncated to `limit`; consequently every returned result clears the `0.1`
cutoff. -/
theorem optimizedTextBasedSearch_characterisation
    (st : StorageService.Storage) (query : String) (limit : ℕ) :
    SearchService.optimizedTextBasedSearch st query limit =
        (SearchService.sortBySimilarityDesc
          ((StorageService.getAllNotes st).filterMap
            (lexicalScorer (SearchService.preprocessQuery (jsToLower query))))).take limit ∧
      ∀ r ∈ SearchService.optimizedTextBasedSearch st query limit,
        ∃ score : ℚ, (1 / 10 : ℚ) < score ∧ r.similarity = ⟨score, 1⟩ :=
  optimizedTextBasedSearch_spec st query limit

/-- The note of the C5 counterexample: its only scoreable text is the
word `abc`. -/
def c5Note : Note := ⟨"n1", "u1", "abc", "", "", [], "p"⟩

/-- Storage for the C5 counterexample, with the note's owner signed in. -/
def c5Storage : StorageService.Storage := ⟨[c5Note], [], some ⟨"u1"⟩⟩

/-- Ten usable query terms, exactly one of which (`abc`) matches the
note's text; the other nine are at edit distance ≥ 3 from every document
token.  The resulting score is `1/10`. -/
def c5Query : String := "abc def ghi jkl mno pqr stu vwx xyz klm"

unseal Rat.mul Rat.add Rat.sub Rat.inv in
/-- Counterexample to C5 as stated: this note scores exactly `1/10`, which
is strictly greater than `0`, yet the lexical fallback returns the empty
list (the source keeps only scores `> 0.1`, and `1/10` is not `> 0.1`). -/
theorem optimizedTextBasedSearch_drops_positive_score :
    SearchService.calculateTextSimilarity
        (SearchService.preprocessQuery (jsToLower c5Query))
        (SearchService.preprocessText "abc   ") = some (1 / 10) ∧
      (0 : ℚ) < 1 / 10 ∧
      SearchService.optimizedTextBasedSearch c5Storage c5Query 10 = [] := by
  refine ⟨by decide, by norm_num, by decide⟩

unseal Rat.mul Rat.add Rat.sub Rat.inv in
/-- Witness for C5 (corrected) at a query whose single term matches: the
returned result carries score `1`. -/
theorem optimizedTextBasedSearch_characterisation_witness :
    SearchService.optimizedTextBasedSearch c5Storage "abc" 10 =
        (SearchService.sortBySimilarityDesc
          ((StorageService.getAllNotes c5Storage).filterMap
            (lexicalScorer (SearchService.preprocessQuery (jsToLower "abc"))))).take 10 ∧
      ∃ score : ℚ, (1 / 10 : ℚ) < score ∧
        (⟨c5Note, ⟨1, 1⟩⟩ : SearchResult).similarity = ⟨score, 1⟩ := by
  refine ⟨(optimizedTextBasedSearch_characterisation c5Storage "abc" 10).1, ?_⟩
  exact (optimizedTextBasedSearch_characterisation c5Storage "abc" 10).2
    ⟨c5Note, ⟨1, 1⟩⟩ (by decide)

/-! ### C4: empty queries — NaN score, no results -/

/-- Counterexample to C4 as stated: after stop-word removal the query
`"of the"` has no usable terms, and the lexical score is the unguarded
`0 / 0` — JS `NaN`, modelled as `none` — for every document, not `0`. -/
theorem calculateTextSimilarity_empty_query_not_zero :
    SearchService.preprocessQuery "of the" = [] ∧
      SearchService.calculateTextSimilarity (SearchService.preprocessQuery "of the")
        "cooking recipes" = none ∧
      ∀ q : ℚ, (none : Option ℚ) ≠ some q := by
  refine ⟨by decide, rfl, fun q h => by simp at h⟩

/-- C4 corrected: when the query has no usable terms after normalisation,
stop-word removal and the length-> 2 filter, `calculateTextSimilarity`
evaluates the unguarded `0 / 0` (NaN, not `0`) for every document; NaN
fails the `> 0.1` inclusion test, so the lexical search returns no
results. -/
theorem emptyQuery_lexical_no_results (st : StorageService.Storage)
    (query : String) (limit : ℕ)
    (h : SearchService.preprocessQuery (jsToLower query) = []) :
    (∀ searchText, SearchService.calculateTextSimilarity
        (SearchService.preprocessQuery (jsToLower query)) searchText = none) ∧
      SearchService.optimizedTextBasedSearch st query limit = [] := by
  constructor
  · intro searchText
    rw [h]
    rfl
  · rw [(optimizedTextBasedSearch_spec st query limit).1, h]
    have hfm : (StorageService.getAllNotes st).filterMap (lexicalScorer []) = [] := by
      rw [List.filterMap_eq_nil_iff]
      intro a _
      rfl
    rw [hfm]
    simp [SearchService.sortBySimilarityDesc]

/-- Storage for the C4 witness. -/
def c4Storage : StorageService.Storage :=
  ⟨[⟨"n1", "u1", "cooking recipes", "", "", [], "p"⟩], [], some ⟨"u1"⟩⟩

/-- Witness for C4 (corrected) on the concrete stop-word query `"of the"`. -/
theorem emptyQuery_lexical_no_results_witness :
    SearchService.preprocessQuery (jsToLower "of the") = [] ∧
      SearchService.optimizedTextBasedSearch c4Storage "of the" 5 = [] := by
  have h : SearchService.preprocessQuery (jsToLower "of the") = [] := by decide
  exact ⟨h, (emptyQuery_lexical_no_results c4Storage "of the" 5 h).2⟩

/-! ### C3: the repair retry is an unbounded recursion -/

/-- The single note of the divergence scenario. -/
def c3Note : Note := ⟨"n1", "u1", "t", "c", "s", [], "p"⟩

/-- A provider behaviour the spec explicitly allows (wrong-shaped data):
the query `"q"` embeds to a length-2 vector while every note content
embeds to a length-3 vector. -/
def c3Env : SearchService.SearchEnv :=
  ⟨fun text => if text = "q" then .ok [1, 1] else .ok [1, 1, 1]⟩

/-- Storage with one legacy length-1 embedding for the note. -/
def c3Storage : StorageService.Storage :=
  ⟨[c3Note], [("n1", [1])], some ⟨"u1"⟩⟩

/-- Fresh service state over `c3Storage`. -/
def c3State : SearchService.SearchState := ⟨[], [], 0, c3Storage, 0⟩

/-- The state after the first search pass and `k` further repair passes:
the query embedding is cached, the note's embedding has been regenerated
to length 3 (still mismatching the length-2 query embedding), and the
provider has been called `k + 2` times. -/
def c3StateAfter (k : ℕ) : SearchService.SearchState :=
  ⟨[("embedding_q", [1, 1])], [], 0,
    ⟨[c3Note], [("n1", [1, 1, 1])], some ⟨"u1"⟩⟩, k + 2⟩

lemma c3_step0 (fuel : ℕ) :
    SearchService.searchNotesFuel c3Env (fuel + 1) 0 "q" 10 c3State =
      SearchService.searchNotesFuel c3Env fuel 0 "q" 10 (c3StateAfter 0) := rfl

lemma c3_step (k fuel : ℕ) :
    SearchService.searchNotesFuel c3Env (fuel + 1) 0 "q" 10 (c3StateAfter k) =
      SearchService.searchNotesFuel c3Env fuel 0 "q" 10 (c3StateAfter (k + 1)) := rfl

lemma c3_diverges_aux : ∀ (fuel k : ℕ),
    SearchService.searchNotesFuel c3Env fuel 0 "q" 10 (c3StateAfter k) = none := by
  intro fuel
  induction fuel with
  | zero => intro k; rfl
  | succ fuel ih =>
    intro k
    rw [c3_step k fuel]
    exact ih (k + 1)

/-- C3 (code bug): on a corpus whose stored embedding lengths persistently
differ from the query embedding's length — here a provider returning
wrong-shaped data, which §6 of the spec says the core must tolerate —
every pass of `searchNotes` detects only mismatches, invokes
`regenerateEmbeddings`, and then re-enters the FULL search recursively
(part_001 line 97).  The recursion has no once-only bound and never falls
back to lexical search: for every amount of fuel the model fails to
terminate. -/
theorem searchNotes_repair_retry_diverges :
    ∀ fuel : ℕ, SearchService.searchNotesFuel c3Env fuel 0 "q" 10 c3State = none := by
  intro fuel
  cases fuel with
  | zero => rfl
  | succ fuel =>
    rw [c3_step0 fuel]
    exact c3_diverges_aux fuel 0

/-! ### Cache keys: the decimal limit suffix is recoverable -/

lemma digitChar_ne_underscore {k : ℕ} (h : k < 10) :
    SearchService.digitChar k ≠ '_' := by
  interval_cases k <;> decide

lemma digitChar_val {k : ℕ} (h : k < 10) :
    (SearchService.digitChar k).toNat - '0'.toNat = k := by
  interval_cases k <;> decide

lemma natDigitsAux_ne_underscore :
    ∀ (fuel n : ℕ), n < fuel → ∀ c ∈ SearchService.natDigitsAux fuel n, c ≠ '_' := by
  intro fuel
  induction fuel with
  | zero => intro n hn; omega
  | succ fuel ih =>
    intro n hn c hc
    unfold SearchService.natDigitsAux at hc
    by_cases h : n < 10
    · rw [if_pos h] at hc
      simp only [List.mem_singleton] at hc
      exact hc ▸ digitChar_ne_underscore h
    · rw [if_neg h] at hc
      rcases List.mem_append.mp hc with hc1 | hc2
      · have hdiv : n / 10 < fuel := by
          have := Nat.div_lt_self (show 0 < n by omega) (by norm_num : 1 < 10)
          omega
        exact ih (n / 10) hdiv c hc1
      · simp only [List.mem_singleton] at hc2
        exact hc2 ▸ digitChar_ne_underscore (Nat.mod_lt n (by norm_num))

lemma natDigitsAux_val :
    ∀ (fuel n : ℕ), n < fuel →
      List.foldl (fun acc c => 10 * acc + (c.toNat - '0'.toNat)) 0
        (SearchService.natDigitsAux fuel n) = n := by
  intro fuel
  induction fuel with
  | zero => intro n hn; omega
  | succ fuel ih =>
    intro n hn
    unfold SearchService.natDigitsAux
    by_cases h : n < 10
    · rw [if_pos h]
      simp only [List.foldl_cons, List.foldl_nil]
      rw [digitChar_val h]
      omega
    · rw [if_neg h]
      have hdiv : n / 10 < fuel := by
        have := Nat.div_lt_self (show 0 < n by omega) (by norm_num : 1 < 10)
        omega
      rw [List.foldl_append]
      simp only [List.foldl_cons, List.foldl_nil]
      rw [ih (n / 10) hdiv, digitChar_val (Nat.mod_lt n (by norm_num))]
      omega

lemma natDigits_inj {m n : ℕ} (h : SearchService.natDigits m = SearchService.natDigits n) :
    m = n := by
  have hm := natDigitsAux_val (m + 1) m (Nat.lt_succ_self m)
  have hn := natDigitsAux_val (n + 1) n (Nat.lt_succ_self n)
  unfold SearchService.natDigits at h
  rw [← hm, ← hn, h]

lemma natDigits_no_underscore (n : ℕ) : '_' ∉ SearchService.natDigits n :=
  fun hmem => natDigitsAux_ne_underscore (n + 1) n (Nat.lt_succ_self n) '_' hmem rfl

lemma append_underscore_inj :
    ∀ (a b d e : List Char), '_' ∉ d → '_' ∉ e →
      a ++ '_' :: d = b ++ '_' :: e → d = e := by
  intro a
  induction a with
  | nil =>
    intro b d e hd he h
    cases b with
    | nil => simpa using h
    | cons c bs =>
      simp only [List.nil_append, List.cons_append, List.cons.injEq] at h
      exact absurd (h.2 ▸ List.mem_append_right bs (List.mem_cons_self '_' e)) hd
  | cons c as ih =>
    intro b d e hd he h
    cases b with
    | nil =>
      simp only [List.nil_append, List.cons_append, List.cons.injEq] at h
      exact absurd (h.2 ▸ List.mem_append_right as (List.mem_cons_self '_' d)) he
    | cons c' bs =>
      simp only [List.cons_append, List.cons.injEq] at h
      exact ih bs d e hd he h.2

/-- Two cache keys agree only if their limits agree: the decimal numeral
after the last underscore is underscore-free, so the limit is recoverable
from the key. -/
lemma mkCacheKey_limit_inj {q q' : String} {l l' : ℕ}
    (h : SearchService.mkCacheKey q l = SearchService.mkCacheKey q' l') : l = l' := by
  have hdata := congrArg String.data h
  simp only [SearchService.mkCacheKey, SearchService.natRepr] at hdata
  have hform : ∀ (s : String) (n : ℕ),
      (s ++ "_" ++ String.mk (SearchService.natDigits n)).data =
        s.data ++ '_' :: SearchService.natDigits n := by
    intro s n
    show (s.data ++ "_".data) ++ SearchService.natDigits n = _
    simp
  rw [hform, hform] at hdata
  exact natDigits_inj
    (append_underscore_inj _ _ _ _ (natDigits_no_underscore l) (natDigits_no_underscore l') hdata)

/-! ### Well-formed rankings -/

/-- The descending order on results, read at the level of the real scores
the JS floats denote. -/
def resOrder (a b : SearchResult) : Prop :=
  b.similarity.toReal ≤ a.similarity.toReal

/-- Every score the service constructs has a positive `den` (cosine scores
carry `normA * normB` of two non-zero vectors, lexical and zero-magnitude
scores carry `1`). -/
def goodScore (r : SearchResult) : Prop :=
  0 < r.similarity.den

lemma ltB_false_toReal {s t : SimScore} (hs : 0 < s.den) (ht : 0 < t.den)
    (h : ¬ SimScore.ltB s t = true) : t.toReal ≤ s.toReal := by
  rcases le_or_lt t.toReal s.toReal with hle | hlt
  · exact hle
  · exact absurd ((SimScore.ltB_iff hs ht).mpr hlt) h

lemma insertDesc_pairwise {x : SearchResult} {l : List SearchResult}
    (hx : goodScore x) (hl : ∀ y ∈ l, goodScore y) (h : l.Pairwise resOrder) :
    (SearchService.insertDesc x l).Pairwise resOrder := by
  induction l with
  | nil => simp [SearchService.insertDesc]
  | cons y ys ih =>
    rw [List.pairwise_cons] at h
    obtain ⟨hy, hys⟩ := h
    have hgy : goodScore y := hl y (List.mem_cons_self _ _)
    have hgys : ∀ z ∈ ys, goodScore z := fun z hz => hl z (List.mem_cons_of_mem _ hz)
    unfold SearchService.insertDesc
    by_cases hcmp : SimScore.ltB x.similarity y.similarity
    · rw [if_pos hcmp]
      rw [List.pairwise_cons]
      refine ⟨fun z hz => ?_, ih hgys hys⟩
      rcases mem_insertDesc.mp hz with rfl | hzys
      · exact le_of_lt ((SimScore.ltB_iff hx hgy).mp hcmp)
      · exact hy z hzys
    · rw [if_neg hcmp]
      rw [List.pairwise_cons]
      have hyx : y.similarity.toReal ≤ x.similarity.toReal :=
        ltB_false_toReal hx hgy hcmp
      refine ⟨fun z hz => ?_, List.pairwise_cons.mpr ⟨hy, hys⟩⟩
      rcases List.mem_cons.mp hz with rfl | hzys
      · exact hyx
      · exact le_trans (hy z hzys) hyx

lemma sortBySimilarityDesc_pairwise {l : List SearchResult}
    (hl : ∀ y ∈ l, goodScore y) :
    (SearchService.sortBySimilarityDesc l).Pairwise resOrder := by
  induction l with
  | nil => simp [SearchService.sortBySimilarityDesc]
  | cons x xs ih =>
    unfold SearchService.sortBySimilarityDesc
    have hxs : ∀ y ∈ xs, goodScore y := fun y hy => hl y (List.mem_cons_of_mem _ hy)
    exact insertDesc_pairwise (hl x (List.mem_cons_self _ _))
      (fun y hy => hxs y (mem_sortBySimilarityDesc.mp hy)) (ih hxs)

lemma foldl_preserve {α β : Type} (P : β → Prop) (step : β → α → β)
    (hstep : ∀ b a, P b → P (step b a)) :
    ∀ (l : List α) (b : β), P b → P (List.foldl step b l) := by
  intro l
  induction l with
  | nil => intro b hb; exact hb
  | cons x xs ih =>
    intro b hb
    rw [List.foldl_cons]
    exact ih _ (hstep b x hb)

lemma optimizedCosineSimilarity_pos_den {a b : List ℚ} {s : SimScore}
    (h : SearchService.optimizedCosineSimilarity a b = .ok s) : 0 < s.den := by
  unfold SearchService.optimizedCosineSimilarity at h
  split at h
  · exact absurd h (by simp)
  · next hlen =>
    dsimp only at h
    split at h
    · obtain rfl := Except.ok.inj h
      norm_num
    · next hz =>
      obtain rfl := Except.ok.inj h
      push_neg at hz
      show (0 : ℚ) < _ * _
      rcases lt_of_le_of_ne (normSq_nonneg a) (Ne.symm hz.1) with hA
      rcases lt_of_le_of_ne (normSq_nonneg b) (Ne.symm hz.2) with hB
      exact mul_pos hA hB

lemma scorePass_good (qe : List ℚ) (embs : List (String × List ℚ))
    (notes : List Note) :
    ∀ r ∈ (SearchService.scorePass qe embs notes).1, goodScore r := by
  unfold SearchService.scorePass
  refine foldl_preserve (fun acc => ∀ r ∈ acc.1, goodScore r) _ ?_ notes ([], false)
    (by simp)
  intro acc note hacc
  cases hlk : embs.lookup note.id with
  | none => simpa only [hlk] using hacc
  | some ne =>
    simp only [hlk]
    by_cases hlen : qe.length ≠ ne.length
    · rw [if_pos hlen]
      exact hacc
    · rw [if_neg hlen]
      cases hcs : SearchService.optimizedCosineSimilarity qe ne with
      | error e => simpa only [hcs] using hacc
      | ok sim =>
        simp only [hcs]
        by_cases hlt : SimScore.ltB ⟨1 / 10, 1⟩ sim
        · rw [if_pos hlt]
          intro r hr
          rcases List.mem_append.mp hr with hr1 | hr2
          · exact hacc r hr1
          · obtain rfl := List.mem_singleton.mp hr2
            exact optimizedCosineSimilarity_pos_den hcs
        · rw [if_neg hlt]
          exact hacc

lemma lexicalScorer_good {qw : List String} {note : Note} {r : SearchResult}
    (h : lexicalScorer qw note = some r) : goodScore r := by
  unfold lexicalScorer at h
  split at h
  · exact absurd h (by simp)
  · next score hc =>
    split at h
    · obtain rfl := Option.some_inj.mp h
      norm_num [goodScore]
    · exact absurd h (by simp)

lemma optimizedTextBasedSearch_wf (st : StorageService.Storage) (query : String)
    (limit : ℕ) :
    (SearchService.optimizedTextBasedSearch st query limit).Pairwise resOrder ∧
      (∀ r ∈ SearchService.optimizedTextBasedSearch st query limit, goodScore r) ∧
      (SearchService.optimizedTextBasedSearch st query limit).length ≤ limit := by
  obtain ⟨heq, -⟩ := optimizedTextBasedSearch_spec st query limit
  have hgoods : ∀ y ∈ (StorageService.getAllNotes st).filterMap
      (lexicalScorer (SearchService.preprocessQuery (jsToLower query))), goodScore y := by
    intro y hy
    obtain ⟨note, -, hg⟩ := List.mem_filterMap.mp hy
    exact lexicalScorer_good hg
  refine ⟨?_, ?_, ?_⟩
  · rw [heq]
    exact List.Pairwise.sublist (List.take_sublist _ _)
      (sortBySimilarityDesc_pairwise hgoods)
  · intro r hr
    rw [heq] at hr
    exact hgoods r (mem_sortBySimilarityDesc.mp (List.mem_of_mem_take hr))
  · rw [heq]
    exact List.length_take_le _ _

/-! ### The engine returns well-formed rankings -/

/-- Cache well-formedness: every stored list is sorted descending, carries
positive-`den` scores, and respects the limit baked into its key. -/
def WFcache (cache : List (String × List SearchResult)) : Prop :=
  ∀ key rs, cache.lookup key = some rs →
    rs.Pairwise resOrder ∧ (∀ r ∈ rs, goodScore r) ∧
      ∀ q l, key = SearchService.mkCacheKey q l → rs.length ≤ l

lemma WFcache_nil : WFcache [] := by
  intro key rs h
  simp at h

lemma cleanupCache_wf {s : SearchService.SearchState} (now : Int)
    (h : WFcache s.searchCache) :
    WFcache (SearchService.cleanupCache now s).searchCache := by
  unfold SearchService.cleanupCache
  split
  · exact WFcache_nil
  · exact h

lemma getCachedEmbedding_searchCache (env : SearchService.SearchEnv) (t : String)
    (s : SearchService.SearchState) :
    (SearchService.getCachedEmbedding env t s).2.searchCache = s.searchCache := by
  unfold SearchService.getCachedEmbedding
  dsimp only
  split
  · rfl
  · split <;> rfl

lemma getCachedEmbedding_storage (env : SearchService.SearchEnv) (t : String)
    (s : SearchService.SearchState) :
    (SearchService.getCachedEmbedding env t s).2.storage = s.storage := by
  unfold SearchService.getCachedEmbedding
  dsimp only
  split
  · rfl
  · split <;> rfl

lemma regenerateEmbeddings_searchCache (env : SearchService.SearchEnv)
    (s : SearchService.SearchState) :
    (SearchService.regenerateEmbeddings env s).searchCache = s.searchCache := by
  unfold SearchService.regenerateEmbeddings
  refine foldl_preserve (fun s' => s'.searchCache = s.searchCache) _ ?_ _ s rfl
  intro b note hb
  cases hg : env.gen note.content <;> simp only [hg] <;> exact hb

/-- Core invariant: from a well-formed cache, a completed `searchNotes`
call returns a descending, positive-`den`, `limit`-bounded list and leaves
the cache well-formed. -/
lemma searchNotesFuel_wf :
    ∀ (fuel : ℕ) (env : SearchService.SearchEnv) (now : Int) (query : String)
      (limit : ℕ) (s : SearchService.SearchState) (r : List SearchResult)
      (s' : SearchService.SearchState),
      WFcache s.searchCache →
      SearchService.searchNotesFuel env fuel now query limit s = some (r, s') →
      r.Pairwise resOrder ∧ (∀ x ∈ r, goodScore x) ∧ r.length ≤ limit ∧
        WFcache s'.searchCache := by
  intro fuel
  induction fuel with
  | zero =>
    intro env now query limit s r s' hwf h
    simp [SearchService.searchNotesFuel] at h
  | succ fuel ih =>
    intro env now query limit s r s' hwf h
    simp only [SearchService.searchNotesFuel] at h
    have hwf1 : WFcache (SearchService.cleanupCache now s).searchCache :=
      cleanupCache_wf now hwf
    cases hlk : (SearchService.cleanupCache now s).searchCache.lookup
        (SearchService.mkCacheKey query limit) with
    | some cached =>
      rw [hlk] at h
      simp only [Option.some.injEq, Prod.mk.injEq] at h
      obtain ⟨rfl, rfl⟩ := h
      obtain ⟨hsort, hgood, hlen⟩ := hwf1 _ _ hlk
      exact ⟨hsort, hgood, hlen query limit rfl, hwf1⟩
    | none =>
      rw [hlk] at h
      cases hge : SearchService.getCachedEmbedding env query
          (SearchService.cleanupCache now s) with
      | mk res s2 =>
        rw [hge] at h
        have hwf2 : WFcache s2.searchCache := by
          have := getCachedEmbedding_searchCache env query
            (SearchService.cleanupCache now s)
          rw [hge] at this
          rwa [this]
        cases res with
        | error e =>
          simp only [Option.some.injEq, Prod.mk.injEq] at h
          obtain ⟨rfl, rfl⟩ := h
          obtain ⟨h1, h2, h3⟩ := optimizedTextBasedSearch_wf s2.storage query limit
          exact ⟨h1, h2, h3, hwf2⟩
        | ok qe =>
          dsimp only at h
          by_cases hemb : (StorageService.getAllEmbeddings s2.storage).length = 0
          · rw [if_pos hemb] at h
            simp only [Option.some.injEq, Prod.mk.injEq] at h
            obtain ⟨rfl, rfl⟩ := h
            obtain ⟨h1, h2, h3⟩ := optimizedTextBasedSearch_wf s2.storage query limit
            exact ⟨h1, h2, h3, hwf2⟩
          · rw [if_neg hemb] at h
            by_cases hrm : (SearchService.scorePass qe
                  (StorageService.getAllEmbeddings s2.storage)
                  (StorageService.getAllNotes s2.storage)).2 = true ∧
                (SearchService.scorePass qe
                  (StorageService.getAllEmbeddings s2.storage)
                  (StorageService.getAllNotes s2.storage)).1.length = 0
            · rw [if_pos hrm] at h
              have hwf3 : WFcache (SearchService.regenerateEmbeddings env s2).searchCache := by
                rw [regenerateEmbeddings_searchCache]
                exact hwf2
              exact ih env now query limit _ r s' hwf3 h
            · rw [if_neg hrm] at h
              simp only [Option.some.injEq, Prod.mk.injEq] at h
              obtain ⟨rfl, rfl⟩ := h
              have hgoods := scorePass_good qe
                (StorageService.getAllEmbeddings s2.storage)
                (StorageService.getAllNotes s2.storage)
              refine ⟨List.Pairwise.sublist (List.take_sublist _ _)
                  (sortBySimilarityDesc_pairwise hgoods), ?_, List.length_take_le _ _, ?_⟩
              · intro x hx
                exact hgoods x (mem_sortBySimilarityDesc.mp (List.mem_of_mem_take hx))
              · intro key' rs' hlk'
                by_cases hkeq : key' = SearchService.mkCacheKey query limit
                · have hbeq : (key' == SearchService.mkCacheKey query limit) = true :=
                    beq_iff_eq.mpr hkeq
                  simp only [List.lookup, hbeq, Option.some.injEq] at hlk'
                  subst hlk'
                  refine ⟨List.Pairwise.sublist (List.take_sublist _ _)
                      (sortBySimilarityDesc_pairwise hgoods), ?_, ?_⟩
                  · intro x hx
                    exact hgoods x (mem_sortBySimilarityDesc.mp (List.mem_of_mem_take hx))
                  · intro q l hql
                    have hll : limit = l := mkCacheKey_limit_inj (hkeq ▸ hql)
                    rw [← hll]
                    exact List.length_take_le _ _
                · have hbeq : (key' == SearchService.mkCacheKey query limit) = false :=
                    beq_eq_false_iff_ne.mpr hkeq
                  simp only [List.lookup, hbeq] at hlk'
                  exact hwf2 key' rs' hlk'

/-- C8: for every query, every limit ≥ 1 and every service state whose
result cache is well-formed (trivially so for a fresh service), a completed
`searchNotes` call — semantic path, lexical path or cache hit — returns at
most `limit` results, sorted by similarity in non-increasing order:
`results[i+1].similarity ≤ results[i].similarity` for every valid index. -/
theorem searchNotes_ranking (env : SearchService.SearchEnv) (fuel : ℕ) (now : Int)
    (query : String) (limit : ℕ) (s : SearchService.SearchState)
    (r : List SearchResult) (s' : SearchService.SearchState)
    (hwf : WFcache s.searchCache) (_hlim : 1 ≤ limit)
    (h : SearchService.searchNotesFuel env fuel now query limit s = some (r, s')) :
    r.length ≤ limit ∧
      ∀ i (hi : i + 1 < r.length),
        (r.get ⟨i + 1, hi⟩).similarity.toReal ≤
          (r.get ⟨i, Nat.lt_of_succ_lt hi⟩).similarity.toReal := by
  obtain ⟨hsort, -, hlen, -⟩ := searchNotesFuel_wf fuel env now query limit s r s' hwf h
  refine ⟨hlen, ?_⟩
  have hchain : List.Chain' resOrder r := List.Pairwise.chain' hsort
  rw [List.chain'_iff_get] at hchain
  intro i hi
  exact hchain i (by omega)

/-- The note of the C8 witness run. -/
def c8Note : Note := ⟨"n1", "u1", "t", "c", "s", [], "p"⟩

/-- An embedding provider that always returns `[1]`. -/
def c8Env : SearchService.SearchEnv := ⟨fun _ => .ok [1]⟩

/-- Fresh state whose corpus has one note with a stored embedding. -/
def c8State : SearchService.SearchState :=
  ⟨[], [], 0, ⟨[c8Note], [("n1", [1])], some ⟨"u1"⟩⟩, 0⟩

unseal Rat.mul Rat.add Rat.sub Rat.inv in
/-- Witness for C8: the concrete semantic run returns one scored note, and
the theorem's bound and ordering hold for it. -/
theorem searchNotes_ranking_witness :
    ∃ rs : List SearchResult × SearchService.SearchState,
      SearchService.searchNotesFuel c8Env 1 0 "q" 5 c8State = some rs ∧
        rs.1.length ≤ 5 ∧
        ∀ i (hi : i + 1 < rs.1.length),
          (rs.1.get ⟨i + 1, hi⟩).similarity.toReal ≤
            (rs.1.get ⟨i, Nat.lt_of_succ_lt hi⟩).similarity.toReal := by
  have hrun : SearchService.searchNotesFuel c8Env 1 0 "q" 5 c8State =
      some ([⟨c8Note, ⟨1, 1⟩⟩],
        ⟨[("embedding_q", [1])], [("q_5", [⟨c8Note, ⟨1, 1⟩⟩])], 0,
          ⟨[c8Note], [("n1", [1])], some ⟨"u1"⟩⟩, 1⟩) := by
    decide
  have h := searchNotes_ranking c8Env 1 0 "q" 5 c8State _ _ WFcache_nil
    (by norm_num) hrun
  exact ⟨_, hrun, h.1, h.2⟩

/-! ### Result-cache idempotence -/

lemma cleanupCache_no_op {now : Int} {s : SearchService.SearchState}
    (h : now - s.lastCacheCleanup ≤ SearchService.CACHE_DURATION) :
    SearchService.cleanupCache now s = s := by
  unfold SearchService.cleanupCache
  exact if_neg (not_lt.mpr h)

lemma getCachedEmbedding_hit {env : SearchService.SearchEnv} {t : String}
    {s : SearchService.SearchState} {v : List ℚ}
    (h : s.embeddingCache.lookup ("embedding_" ++ jsToLower t) = some v) :
    SearchService.getCachedEmbedding env t s = (.ok v, s) := by
  unfold SearchService.getCachedEmbedding
  dsimp only
  rw [h]

lemma getCachedEmbedding_cached {env : SearchService.SearchEnv} {t : String}
    {s s2 : SearchService.SearchState} {v : List ℚ}
    (h : SearchService.getCachedEmbedding env t s = (.ok v, s2)) :
    s2.embeddingCache.lookup ("embedding_" ++ jsToLower t) = some v := by
  unfold SearchService.getCachedEmbedding at h
  dsimp only at h
  cases hlk : s.embeddingCache.lookup ("embedding_" ++ jsToLower t) with
  | some cached =>
    rw [hlk] at h
    simp only [Prod.mk.injEq, Except.ok.injEq] at h
    obtain ⟨rfl, rfl⟩ := h
    exact hlk
  | none =>
    rw [hlk] at h
    cases hg : env.gen t with
    | ok emb =>
      rw [hg] at h
      simp only [Prod.mk.injEq, Except.ok.injEq] at h
      obtain ⟨rfl, rfl⟩ := h
      show List.lookup _ (_ :: _) = _
      simp [List.lookup]
    | error e =>
      rw [hg] at h
      simp at h

lemma getCachedEmbedding_ok {env : SearchService.SearchEnv} {t : String}
    (s : SearchService.SearchState) (hok : ∀ u, ∃ v, env.gen u = .ok v) :
    ∃ v s2, SearchService.getCachedEmbedding env t s = (.ok v, s2) := by
  unfold SearchService.getCachedEmbedding
  dsimp only
  cases hlk : s.embeddingCache.lookup ("embedding_" ++ jsToLower t) with
  | some cached => exact ⟨cached, s, rfl⟩
  | none =>
    obtain ⟨v, hv⟩ := hok t
    rw [hv]
    exact ⟨v, _, rfl⟩

/-- After a completed call (with a provider that always resolves — as the
repository's `aiService.generateEmbedding` does, see C10), either the
result cache holds the returned list under this query-and-limit key, or
the call went through the lexical path because the embedding store is
empty: then the key is still absent, the query's embedding is cached, and
the result is the deterministic lexical output of the final state. -/
lemma searchNotesFuel_post :
    ∀ (fuel : ℕ) (env : SearchService.SearchEnv) (now : Int) (query : String)
      (limit : ℕ) (s : SearchService.SearchState) (r1 : List SearchResult)
      (s1 : SearchService.SearchState),
      (∀ u, ∃ v, env.gen u = Except.ok v) →
      SearchService.searchNotesFuel env fuel now query limit s = some (r1, s1) →
      s1.searchCache.lookup (SearchService.mkCacheKey query limit) = some r1 ∨
        (s1.searchCache.lookup (SearchService.mkCacheKey query limit) = none ∧
          (∃ v, s1.embeddingCache.lookup ("embedding_" ++ jsToLower query) = some v) ∧
          s1.storage.embeddings = [] ∧
          r1 = SearchService.optimizedTextBasedSearch s1.storage query limit) := by
  intro fuel
  induction fuel with
  | zero =>
    intro env now query limit s r1 s1 hok h
    simp [SearchService.searchNotesFuel] at h
  | succ fuel ih =>
    intro env now query limit s r1 s1 hok h
    simp only [SearchService.searchNotesFuel] at h
    cases hlk : (SearchService.cleanupCache now s).searchCache.lookup
        (SearchService.mkCacheKey query limit) with
    | some cached =>
      rw [hlk] at h
      simp only [Option.some.injEq, Prod.mk.injEq] at h
      obtain ⟨rfl, rfl⟩ := h
      exact Or.inl hlk
    | none =>
      rw [hlk] at h
      obtain ⟨qe, s2, hge⟩ :=
        @getCachedEmbedding_ok env query (SearchService.cleanupCache now s) hok
      rw [hge] at h
      dsimp only at h
      have hsc : s2.searchCache = (SearchService.cleanupCache now s).searchCache := by
        have := getCachedEmbedding_searchCache env query (SearchService.cleanupCache now s)
        rw [hge] at this
        exact this
      by_cases hemb : (StorageService.getAllEmbeddings s2.storage).length = 0
      · rw [if_pos hemb] at h
        simp only [Option.some.injEq, Prod.mk.injEq] at h
        obtain ⟨rfl, rfl⟩ := h
        refine Or.inr ⟨by rw [hsc]; exact hlk, ⟨qe, getCachedEmbedding_cached hge⟩, ?_, rfl⟩
        exact List.length_eq_zero.mp hemb
      · rw [if_neg hemb] at h
        by_cases hrm : (SearchService.scorePass qe
              (StorageService.getAllEmbeddings s2.storage)
              (StorageService.getAllNotes s2.storage)).2 = true ∧
            (SearchService.scorePass qe
              (StorageService.getAllEmbeddings s2.storage)
              (StorageService.getAllNotes s2.storage)).1.length = 0
        · rw [if_pos hrm] at h
          exact ih env now query limit _ r1 s1 hok h
        · rw [if_neg hrm] at h
          simp only [Option.some.injEq, Prod.mk.injEq] at h
          obtain ⟨rfl, rfl⟩ := h
          left
          show List.lookup _ (_ :: _) = _
          simp [List.lookup]

/-- C7: (i) the result-cache key incorporates both the lowercased query
text and the requested limit, so `search(q, 5)` and `search(q, 20)` occupy
distinct cache entries; (ii) with a provider that always resolves — which
the repository's `aiService.generateEmbedding` is (C10) — a second
consecutive call with the same query and limit within the cache window
returns the identical ordered result list and leaves the state, including
the `providerCalls` counter, unchanged: the second call performs zero
provider calls. -/
theorem searchNotes_cache_idempotent :
    (∀ (q : String) (l l' : ℕ), l ≠ l' →
        SearchService.mkCacheKey q l ≠ SearchService.mkCacheKey q l') ∧
      (∀ (env : SearchService.SearchEnv) (fuel : ℕ) (now1 now2 : Int)
          (query : String) (limit : ℕ) (s : SearchService.SearchState)
          (r1 : List SearchResult) (s1 : SearchService.SearchState),
        (∀ u, ∃ v, env.gen u = Except.ok v) →
        SearchService.searchNotesFuel env fuel now1 query limit s = some (r1, s1) →
        now2 - s1.lastCacheCleanup ≤ SearchService.CACHE_DURATION →
        SearchService.searchNotesFuel env 1 now2 query limit s1 = some (r1, s1)) := by
  constructor
  · intro q l l' hne heq
    exact hne (mkCacheKey_limit_inj heq)
  · intro env fuel now1 now2 query limit s r1 s1 hok h1 hwin
    have hpost := searchNotesFuel_post fuel env now1 query limit s r1 s1 hok h1
    simp only [SearchService.searchNotesFuel]
    rw [cleanupCache_no_op hwin]
    rcases hpost with hl | ⟨hnone, ⟨v, hv⟩, hembs, hr⟩
    · rw [hl]
    · rw [hnone, @getCachedEmbedding_hit env query s1 v hv]
      dsimp only
      have hlen : (StorageService.getAllEmbeddings s1.storage).length = 0 := by
        unfold StorageService.getAllEmbeddings
        rw [hembs]
        rfl
      rw [if_pos hlen, ← hr]

/-- Provider for the C7 witness: always resolves with `[1]`. -/
def c7Env : SearchService.SearchEnv := ⟨fun _ => .ok [1]⟩

/-- Fresh state over an empty corpus (no embedding records). -/
def c7State : SearchService.SearchState := ⟨[], [], 0, ⟨[], [], some ⟨"u1"⟩⟩, 0⟩

/-- The state after the first call of the C7 witness: the query embedding
is cached and the provider was called once. -/
def c7State1 : SearchService.SearchState :=
  ⟨[("embedding_q", [1])], [], 0, ⟨[], [], some ⟨"u1"⟩⟩, 1⟩

/-- Witness for C7: distinct keys for limits 5 and 20 on the same query,
and the concrete second call reproduces the first call's result with the
identical state (in particular, the same `providerCalls` count). -/
theorem searchNotes_cache_idempotent_witness :
    SearchService.mkCacheKey "q" 5 ≠ SearchService.mkCacheKey "q" 20 ∧
      SearchService.searchNotesFuel c7Env 1 0 "q" 5 c7State1 = some ([], c7State1) := by
  constructor
  · exact searchNotes_cache_idempotent.1 "q" 5 20 (by norm_num)
  · have h1 : SearchService.searchNotesFuel c7Env 1 0 "q" 5 c7State =
        some ([], c7State1) := by decide
    exact searchNotes_cache_idempotent.2 c7Env 1 0 0 "q" 5 c7State [] c7State1
      (fun u => ⟨[1], rfl⟩) h1 (by decide)
